import Mathlib

/-!
Verification of the LLM-output parsing and quiz/lesson session-state model of
the `steamlitbackend` repository (files `streamlit_app.py` and
`streamlit_app_QuestionGen.py`).

Text is embedded as `List Char` (a Python `str`); lines are `List Char` as
well.  Python dicts that preserve insertion order are embedded as association
lists with insert-or-update semantics.  Python `set` is embedded as `Finset ℕ`
and Python `int` as `ℤ`.
-/

/-- Python `str.isspace` characters relevant to `str.strip()` (ASCII). -/
def pyIsSpace (c : Char) : Bool :=
  c = ' ' || c = '\t' || c = '\n' || c = '\r' || c = '\x0b' || c = '\x0c'

/-- Python `str.strip()`: drop leading and trailing whitespace. -/
def pystrip (l : List Char) : List Char :=
  ((l.dropWhile pyIsSpace).reverse.dropWhile pyIsSpace).reverse

/-- Python `str.split('\n')`: split on newline, keeping empty pieces. -/
def splitNl : List Char → List (List Char)
  | [] => [[]]
  | c :: rest =>
    if c = '\n' then [] :: splitNl rest
    else
      match splitNl rest with
      | [] => [[c]]
      | h :: t => (c :: h) :: t

/-- Python `sub in s`: substring containment test. -/
def isSubstr (pat : List Char) : List Char → Bool
  | [] => pat.isPrefixOf ([] : List Char)
  | c :: rest => pat.isPrefixOf (c :: rest) || isSubstr pat rest

/-- Python `str.lower()` (ASCII). -/
def pyLower (l : List Char) : List Char := l.map Char.toLower

/-!
## Question block splitting

`streamlit_app_QuestionGen.py` splits raw LLM text into question blocks with
`re.split(r'\n\d+\.|Question \d+:', text)`.  The scanner below reproduces
`re`'s left-to-right, leftmost-match, non-overlapping semantics: at each
position the first alternative `\n\d+\.` (newline, maximal nonempty digit
run, dot) is tried, then `Question \d+:`; on a match the matched characters
are removed and scanning resumes after them.
-/

/-- If one of the two split-pattern alternatives matches at the head of `l`,
return the remaining suffix after the match. -/
def tryMatchSplit (l : List Char) : Option (List Char) :=
  match l with
  | '\n' :: rest =>
    match rest with
    | c :: rest2 =>
      if c.isDigit then
        match rest2.dropWhile Char.isDigit with
        | '.' :: rest3 => some rest3
        | _ => none
      else none
    | [] => none
  | _ =>
    if ("Question ".data).isPrefixOf l then
      match l.drop 9 with
      | c :: rest2 =>
        if c.isDigit then
          match rest2.dropWhile Char.isDigit with
          | ':' :: rest3 => some rest3
          | _ => none
        else none
      | [] => none
    else none

/-- Worker for `re.split`: `acc` holds the (reversed) characters of the piece
currently being accumulated.  The `fuel` argument only makes the recursion
structural (so the kernel can evaluate it); `goSplit_fuel_irrel` below shows
the fuel case is never reached when `l.length < fuel`. -/
def goSplit : Nat → List Char → List Char → List (List Char)
  | 0, l, acc => [acc.reverse ++ l]
  | fuel + 1, l, acc =>
    match tryMatchSplit l, l with
    | some rest, _ => acc.reverse :: goSplit fuel rest []
    | none, [] => [acc.reverse]
    | none, c :: rest => goSplit fuel rest (c :: acc)

/-- `re.split(r'\n\d+\.|Question \d+:', text)`. -/
def splitQuestionBlocks (text : List Char) : List (List Char) :=
  goSplit (text.length + 1) text []

/-!
## Parsing generated questions (`parse_generated_questions`)
-/

/-- Python `str.replace('*', '')`: remove every asterisk. -/
def removeStars (l : List Char) : List Char := l.filter (fun c => c ≠ '*')

/-- Worker for `str.replace('(correct)', '')`: left-to-right, non-overlapping
removal of every occurrence.  `fuel` only makes the recursion structural;
`removeCorrectTagGo_fuel_irrel` shows the fuel case is never reached. -/
def removeCorrectTagGo : Nat → List Char → List Char
  | 0, l => l
  | fuel + 1, l =>
    if ("(correct)".data).isPrefixOf l then removeCorrectTagGo fuel (l.drop 9)
    else
      match l with
      | [] => []
      | c :: rest => c :: removeCorrectTagGo fuel rest

/-- Python `str.replace('(correct)', '')`. -/
def removeCorrectTag (l : List Char) : List Char :=
  removeCorrectTagGo (l.length + 1) l

/-- `option.replace('*', '').replace('(correct)', '').strip()`
(lines 375-376 of `streamlit_app_QuestionGen.py`). -/
def cleanOption (o : List Char) : List Char :=
  pystrip (removeCorrectTag (removeStars o))

/-- `'*' in option or 'correct' in option.lower()` (line 374). -/
def isMarkedOption (o : List Char) : Bool :=
  o.contains '*' || isSubstr "correct".data (pyLower o)

/-- The eight option markers of
`line.strip().startswith(('a)', 'b)', 'c)', 'd)', 'A)', 'B)', 'C)', 'D)'))`. -/
def optionMarkers : List (List Char) :=
  ["a)".data, "b)".data, "c)".data, "d)".data,
   "A)".data, "B)".data, "C)".data, "D)".data]

def isOptionLine (l : List Char) : Bool :=
  optionMarkers.any (fun m => m.isPrefixOf l)

/-- Question type tags stored in the parsed dicts. -/
inductive QType where
  | multiple_choice
  | true_false
  | short_answer
  | open_ended
deriving DecidableEq, Repr

/-- A parsed question dict.  Fields the Python dict omits for a given type are
defaulted to the empty string / list. -/
structure Question where
  question : List Char
  options : List (List Char) := []
  correct_answer : List Char := []
  sample_answer : List Char := []
  type : QType
deriving DecidableEq, Repr

/-- The option-scanning loop of the Multiple Choice branch
(lines 371-376): accumulates the options list and the latest
`correct_answer`. -/
def mcScan : List (List Char) → List (List Char) × Option (List Char) →
    List (List Char) × Option (List Char)
  | [], st => st
  | line :: rest, (options, correct_answer) =>
    let ls := pystrip line
    if isOptionLine ls then
      let option := pystrip (ls.drop 2)
      let ca := if isMarkedOption option then some (cleanOption option) else correct_answer
      mcScan rest (options ++ [cleanOption option], ca)
    else
      mcScan rest (options, correct_answer)

/-- One iteration of the Multiple Choice block loop (lines 361-384).
Returns `some q` iff the block passes the `if question and options and
correct_answer` guard (Python truthiness: `None` and empty strings/lists are
falsy). -/
def parseMCBlock (block : List Char) : Option Question :=
  if (pystrip block).isEmpty then none
  else
    let lines := splitNl (pystrip block)
    let question := pystrip (lines.headD [])
    let res := mcScan lines.tail ([], none)
    match res.2 with
    | none => none
    | some ca =>
      if question.isEmpty || res.1.isEmpty || ca.isEmpty then none
      else
        some { question := question, options := res.1, correct_answer := ca,
               type := QType.multiple_choice }

/-- `'Answer:' in line or 'Correct:' in line` (line 398). -/
def tfLineMatches (line : List Char) : Bool :=
  isSubstr "Answer:".data line || isSubstr "Correct:".data line

/-- `'True' if 'true' in line.lower() else 'False'` (line 399). -/
def tfValue (line : List Char) : List Char :=
  if isSubstr "true".data (pyLower line) then "True".data else "False".data

/-- The answer-scanning loop of the True/False branch (lines 397-399).
Note: it runs over ALL lines of the block, the question line included. -/
def tfScan : List (List Char) → Option (List Char) → Option (List Char)
  | [], correct_answer => correct_answer
  | line :: rest, correct_answer =>
    if tfLineMatches line then tfScan rest (some (tfValue line))
    else tfScan rest correct_answer

/-- One iteration of the True/False block loop (lines 389-406). -/
def parseTFBlock (block : List Char) : Option Question :=
  if (pystrip block).isEmpty then none
  else
    let lines := splitNl (pystrip block)
    let question := pystrip (lines.headD [])
    match tfScan lines none with
    | none => none
    | some ca =>
      if question.isEmpty || ca.isEmpty then none
      else some { question := question, correct_answer := ca, type := QType.true_false }

/-- One iteration of the Short Answer / Open Ended block loop
(lines 410-423). -/
def parseSABlock (question_type : List Char) (block : List Char) : Option Question :=
  if (pystrip block).isEmpty then none
  else
    let lines := splitNl (pystrip block)
    let question := pystrip (lines.headD [])
    let sample_answer := pystrip (List.intercalate ['\n'] lines.tail)
    if question.isEmpty then none
    else
      some { question := question, sample_answer := sample_answer,
             type := if question_type = "Open Ended".data then QType.open_ended
                     else QType.short_answer }

/-- `parse_generated_questions(text, question_type)`
(lines 354-425 of `streamlit_app_QuestionGen.py`). -/
def parse_generated_questions (text : List Char) (question_type : List Char) :
    List Question :=
  if question_type = "Multiple Choice".data then
    (splitQuestionBlocks text).filterMap parseMCBlock
  else if question_type = "True/False".data then
    (splitQuestionBlocks text).filterMap parseTFBlock
  else if question_type = "Short Answer".data ∨ question_type = "Open Ended".data then
    (splitQuestionBlocks text).filterMap (parseSABlock question_type)
  else []

/-!
## Parsing lesson sections (`parse_lesson_sections`, `streamlit_app.py`)

Python dicts preserve insertion order; `sections[k] = v` updates the value in
place when `k` is present and appends a new entry otherwise.  We embed the
dict as an association list with exactly that insert-or-update operation.
-/

/-- `d[k] = v` on an insertion-ordered dict. -/
def dictSet (m : List (List Char × List Char)) (k v : List Char) :
    List (List Char × List Char) :=
  match m with
  | [] => [(k, v)]
  | (k', v') :: rest => if k' = k then (k', v) :: rest else (k', v') :: dictSet rest k v

/-- The nine recognized section-header labels (lines 195-198 of
`streamlit_app.py`). -/
def sectionLabels : List (List Char) :=
  ["Overview:".data, "Learning Objectives:".data, "Required Materials:".data,
   "Preparation Steps:".data, "Lesson Procedure:".data,
   "Extensions and Modifications:".data, "Assessment Criteria:".data,
   "Safety Considerations:".data, "Take-Home Connection:".data]

/-- `any(section in line for section in [...])`. -/
def isHeaderLine (line : List Char) : Bool :=
  sectionLabels.any (fun s => isSubstr s line)

/-- Python truthiness of an optional string (`None` and `""` are falsy). -/
def pyTruthyStr : Option (List Char) → Bool
  | none => false
  | some s => !s.isEmpty

/-- Loop state of `parse_lesson_sections`. -/
structure SecState where
  sections : List (List Char × List Char)
  current_section : Option (List Char)
  current_content : List (List Char)
deriving DecidableEq, Repr

/-- One iteration of the `for line in content.split('\n')` loop
(lines 194-204). -/
def secLine (st : SecState) (line : List Char) : SecState :=
  if isHeaderLine line then
    let sections :=
      if pyTruthyStr st.current_section then
        dictSet st.sections (st.current_section.getD [])
          (pystrip (List.intercalate ['\n'] st.current_content))
      else st.sections
    { sections := sections, current_section := some (pystrip line),
      current_content := [] }
  else if pyTruthyStr st.current_section && !(pystrip line).isEmpty then
    { st with current_content := st.current_content ++ [pystrip line] }
  else st

/-- `parse_lesson_sections(content)` (lines 185-210 of `streamlit_app.py`).
The argument is `Option` because the caller may pass `None`
(`lesson_data.get('content', '')` always supplies a string, but
`if not content` also catches `None`). -/
def parse_lesson_sections (content : Option (List Char)) :
    List (List Char × List Char) :=
  match content with
  | none => []
  | some c =>
    if c.isEmpty then []
    else
      let st := (splitNl c).foldl secLine ⟨[], none, []⟩
      if pyTruthyStr st.current_section && !st.current_content.isEmpty then
        dictSet st.sections (st.current_section.getD [])
          (pystrip (List.intercalate ['\n'] st.current_content))
      else st.sections

/-!
## Quiz session state (`streamlit_app_QuestionGen.py`, page "Questions")

The four session fields tracked across user interactions.  `answered_questions`
is a Python `set` of `int` indices (embedded as `Finset ℕ`) and
`current_score` a Python `int` (embedded as `ℤ`; the code uses
`max(0, current_score - 1)` verbatim).
-/

structure QuizState where
  generated_questions : List Question
  current_score : ℤ
  total_questions : ℕ
  answered_questions : Finset ℕ
deriving DecidableEq

/-- Session-state initialization (lines 19-26). -/
def initQuizState : QuizState := ⟨[], 0, 0, ∅⟩

/-- `check_answer(question, user_answer)` (lines 427-435). -/
def check_answer (question : Question) (user_answer : List Char) : Option Bool :=
  match question.type with
  | QType.multiple_choice => some (user_answer = question.correct_answer)
  | QType.true_false => some (pyLower user_answer = pyLower question.correct_answer)
  | _ => none

/-- The user interactions that mutate the quiz state on the Questions page.
`load` carries the parsed question list returned by the external generation
call; `regenerate` carries the first question of the regeneration parse. -/
inductive QuizOp where
  | load : List Question → QuizOp
  | submitAnswer : ℕ → List Char → QuizOp
  | regenerate : ℕ → Question → QuizOp
  | clear : QuizOp
deriving DecidableEq

/-- One user interaction.

* `load qs`: the Generate handler, lines 573-576.
* `submitAnswer i ua`: the per-question Submit handlers (lines 648-656 for
  multiple choice, 666-674 for true/false; Python's `if is_correct:` treats
  `None` as false) and the Show Sample Answer handler (lines 683-685) for the
  other two types.  `i` comes from `enumerate(generated_questions)`, so it is
  always in bounds; an out-of-bounds index has no handler and leaves the state
  unchanged.
* `regenerate i q`: the 🔄 handler, lines 627-634 (replace `questions[i]`,
  then if `i` was answered remove it and set `score = max(0, score - 1)`).
  Out of bounds, the Python list assignment would raise before any mutation.
* `clear`: `clear_questions()`, lines 347-352. -/
def quizStep (s : QuizState) (op : QuizOp) : QuizState :=
  match op with
  | QuizOp.load qs => ⟨qs, 0, qs.length, ∅⟩
  | QuizOp.clear => ⟨[], 0, 0, ∅⟩
  | QuizOp.submitAnswer i ua =>
    match s.generated_questions[i]? with
    | none => s
    | some q =>
      match q.type with
      | QType.multiple_choice | QType.true_false =>
        let is_correct := (check_answer q ua).getD false
        let score :=
          if is_correct then
            if i ∈ s.answered_questions then s.current_score else s.current_score + 1
          else s.current_score
        { s with current_score := score,
                 answered_questions := insert i s.answered_questions }
      | _ => { s with answered_questions := insert i s.answered_questions }
  | QuizOp.regenerate i q =>
    if i < s.generated_questions.length then
      let s1 := { s with generated_questions := s.generated_questions.set i q }
      if i ∈ s1.answered_questions then
        { s1 with answered_questions := s1.answered_questions.erase i,
                  current_score := max 0 (s1.current_score - 1) }
      else s1
    else s

/-- Run a sequence of interactions from the initial session state. -/
def runQuiz (ops : List QuizOp) : QuizState :=
  ops.foldl quizStep initQuizState

/-- Sample questions for concrete runs. -/
def mcQuestionA : Question :=
  { question := "Q0?".data, options := ["A".data, "B".data],
    correct_answer := "A".data, type := QType.multiple_choice }

def mcQuestionB : Question :=
  { question := "Q1?".data, options := ["A".data, "B".data],
    correct_answer := "A".data, type := QType.multiple_choice }

def mcQuestionNew : Question :=
  { question := "QN?".data, options := ["C".data, "D".data],
    correct_answer := "C".data, type := QType.multiple_choice }

/-!
## Lesson session state (`streamlit_app.py`, `main`)

A lesson is a Python dict of immutable (string / int) values.  `main` commits
a generated lesson with `current_lesson = new_lesson;
generated_lessons.append(new_lesson.copy())` (lines 400-401): the history
holds a `dict.copy()` value snapshot, while `current_lesson` stays an alias of
the live dict that `display_lesson_plan_edit` later mutates in place via
`lesson_data['content'] = ...` (lines 318 and 335).
-/

structure Lesson where
  timestamp : List Char
  grade_level : List Char
  subject_area : List Char
  specific_topic : List Char
  delivery_timeline : List Char
  objectives : List Char
  materials_budget : ℕ
  content : List Char
deriving DecidableEq

/-- `dict.copy()`: a fresh dict with the same (immutable) field values. -/
def Lesson.copy (l : Lesson) : Lesson :=
  { timestamp := l.timestamp, grade_level := l.grade_level,
    subject_area := l.subject_area, specific_topic := l.specific_topic,
    delivery_timeline := l.delivery_timeline, objectives := l.objectives,
    materials_budget := l.materials_budget, content := l.content }

structure LessonSession where
  current_lesson : Option Lesson
  generated_lessons : List Lesson
deriving DecidableEq

/-- Lines 400-401: set the current lesson and append a value-copy to the
history. -/
def commitLesson (s : LessonSession) (l : Lesson) : LessonSession :=
  { current_lesson := some l,
    generated_lessons := s.generated_lessons ++ [Lesson.copy l] }

/-- An in-place mutation of the live `current_lesson` dict:
`lesson_data['content'] = '\n'.join(updated_content)` (line 318, section
edit, and line 335, section regeneration).  When no lesson is current the
edit page returns before mutating anything (lines 283-285). -/
def setCurrentContent (s : LessonSession) (c : List Char) : LessonSession :=
  { s with current_lesson := s.current_lesson.map (fun l => { l with content := c }) }

/-- The invariant maintained by every quiz-state interaction. -/
def QuizInv (s : QuizState) : Prop :=
  0 ≤ s.current_score ∧
  s.current_score ≤ (s.answered_questions.card : ℤ) ∧
  s.answered_questions ⊆ Finset.range s.generated_questions.length ∧
  s.total_questions = s.generated_questions.length

/-- The option texts scanned by the Multiple Choice loop: for each payload
line whose stripped form starts with an option marker, the stripped text
after the two marker characters. -/
def scannedOptions (lines : List (List Char)) : List (List Char) :=
  lines.filterMap (fun line =>
    if isOptionLine (pystrip line) then some (pystrip ((pystrip line).drop 2))
    else none)

/-- The scanned options carrying a correctness annotation. -/
def markedOptions (lines : List (List Char)) : List (List Char) :=
  (scannedOptions lines).filter isMarkedOption

def c9Question : Question :=
  { question := "Q?".data, options := ["X".data, "Y".data],
    correct_answer := "Y".data, type := QType.multiple_choice }

/-!
## Theorems
-/

theorem tryMatchSplit_shrinks {l r : List Char} (h : tryMatchSplit l = some r) :
    r.length < l.length := by
  unfold tryMatchSplit at h
  split at h
  · rename_i rest
    cases rest with
    | nil => exact absurd h (by simp)
    | cons c rest2 =>
      simp only at h
      split at h
      · have hlen : (rest2.dropWhile Char.isDigit).length ≤ rest2.length :=
          (List.dropWhile_sublist Char.isDigit).length_le
        split at h
        · rename_i heq
          cases h
          rw [heq] at hlen
          simp at hlen
          simp only [List.length_cons]
          omega
        · exact absurd h (by simp)
      · exact absurd h (by simp)
  · split at h
    · rename_i hpre
      have h9 : ("Question ".data).length ≤ l.length :=
        (List.isPrefixOf_iff_prefix.mp hpre).length_le
      have hdrop : (l.drop 9).length = l.length - 9 := List.length_drop 9 l
      split at h
      · rename_i c rest2 heq2
        split at h
        · split at h
          · rename_i heq3
            cases h
            have hlen : (rest2.dropWhile Char.isDigit).length ≤ rest2.length :=
          (List.dropWhile_sublist Char.isDigit).length_le
            rw [heq3] at hlen
            have hr2 : (l.drop 9).length = rest2.length + 1 := by rw [heq2]; simp
            simp at hlen h9
            omega
          · exact absurd h (by simp)
        · exact absurd h (by simp)
      · exact absurd h (by simp)
    · exact absurd h (by simp)

theorem goSplit_fuel_irrel :
    ∀ (n : Nat) (l acc : List Char) (f g : Nat), l.length ≤ n →
      l.length < f → l.length < g → goSplit f l acc = goSplit g l acc := by
  intro n
  induction n with
  | zero =>
    intro l acc f g hn hf hg
    have hl : l = [] := List.length_eq_zero.mp (Nat.le_zero.mp hn)
    subst hl
    obtain ⟨f', rfl⟩ : ∃ f', f = f' + 1 := ⟨f - 1, by omega⟩
    obtain ⟨g', rfl⟩ : ∃ g', g = g' + 1 := ⟨g - 1, by omega⟩
    rfl
  | succ n ih =>
    intro l acc f g hn hf hg
    obtain ⟨f', rfl⟩ : ∃ f', f = f' + 1 := ⟨f - 1, by omega⟩
    obtain ⟨g', rfl⟩ : ∃ g', g = g' + 1 := ⟨g - 1, by omega⟩
    show goSplit (f' + 1) l acc = goSplit (g' + 1) l acc
    cases hm : tryMatchSplit l with
    | some rest =>
      have hlt := tryMatchSplit_shrinks hm
      cases l with
      | nil => simp at hlt
      | cons c rest0 =>
        simp only [goSplit, hm]
        simp only [List.length_cons] at hn hf hg hlt
        rw [ih rest [] f' g' (by omega) (by omega) (by omega)]
    | none =>
      cases l with
      | nil => rfl
      | cons c rest =>
        simp only [goSplit, hm]
        simp only [List.length_cons] at hn hf hg
        rw [ih rest (c :: acc) f' g' (by omega) (by omega) (by omega)]

theorem removeCorrectTagGo_fuel_irrel :
    ∀ (n : Nat) (l : List Char) (f g : Nat), l.length ≤ n →
      l.length < f → l.length < g →
      removeCorrectTagGo f l = removeCorrectTagGo g l := by
  intro n
  induction n with
  | zero =>
    intro l f g hn hf hg
    have hl : l = [] := List.length_eq_zero.mp (Nat.le_zero.mp hn)
    subst hl
    obtain ⟨f', rfl⟩ : ∃ f', f = f' + 1 := ⟨f - 1, by omega⟩
    obtain ⟨g', rfl⟩ : ∃ g', g = g' + 1 := ⟨g - 1, by omega⟩
    rfl
  | succ n ih =>
    intro l f g hn hf hg
    obtain ⟨f', rfl⟩ : ∃ f', f = f' + 1 := ⟨f - 1, by omega⟩
    obtain ⟨g', rfl⟩ : ∃ g', g = g' + 1 := ⟨g - 1, by omega⟩
    show removeCorrectTagGo (f' + 1) l = removeCorrectTagGo (g' + 1) l
    by_cases hp : ("(correct)".data).isPrefixOf l = true
    · have h9 : ("(correct)".data).length ≤ l.length :=
        (List.isPrefixOf_iff_prefix.mp hp).length_le
      simp only [removeCorrectTagGo, hp, if_true]
      have hd : (l.drop 9).length = l.length - 9 := List.length_drop 9 l
      simp at h9
      exact ih (l.drop 9) f' g' (by omega) (by omega) (by omega)
    · cases l with
      | nil => rfl
      | cons c rest =>
        simp only [removeCorrectTagGo, hp, Bool.false_eq_true, if_false]
        simp only [List.length_cons] at hn hf hg
        rw [ih rest f' g' (by omega) (by omega) (by omega)]

example : pystrip " ab ".data = "ab".data := by decide

example : splitNl "a\nb".data = ["a".data, "b".data] := by decide

example : isSubstr "Answer:".data "x Answer: True".data = true := by decide

example : splitQuestionBlocks "A\n1. B\nQuestion 2: C".data
    = ["A".data, " B\n".data, " C".data] := by decide

example : splitQuestionBlocks "no markers here".data = ["no markers here".data] := by
  decide

example : removeCorrectTag "Lon(correct)don".data = "London".data := by decide

example :
    parse_generated_questions "Capital of UK?\na) Paris\nb) *London\nc) Rome".data
      "Multiple Choice".data
    = [{ question := "Capital of UK?".data,
         options := ["Paris".data, "London".data, "Rome".data],
         correct_answer := "London".data, type := QType.multiple_choice }] := by
  decide

example :
    parse_generated_questions "Is the sky blue?\nAnswer: True".data "True/False".data
    = [{ question := "Is the sky blue?".data, correct_answer := "True".data,
         type := QType.true_false }] := by decide

example : parse_generated_questions [] "Multiple Choice".data = [] := by decide

example :
    parse_lesson_sections (some "Overview:\nfoo\nLesson Procedure:\nbar".data)
    = [("Overview:".data, "foo".data), ("Lesson Procedure:".data, "bar".data)] := by
  decide

example :
    parse_lesson_sections (some "Overview:\nfoo\nOverview:".data)
    = [("Overview:".data, "foo".data)] := by decide

example :
    parse_lesson_sections (some "Overview:\nfoo\nLesson Procedure:\nmid\nOverview:\nbar".data)
    = [("Overview:".data, "bar".data), ("Lesson Procedure:".data, "mid".data)] := by
  decide

example :
    runQuiz [QuizOp.load [mcQuestionA, mcQuestionB],
             QuizOp.submitAnswer 0 "A".data,
             QuizOp.regenerate 0 mcQuestionNew]
    = ⟨[mcQuestionNew, mcQuestionB], 0, 2, ∅⟩ := by decide

theorem foldl_setCurrentContent_history (cs : List (List Char)) :
    ∀ st : LessonSession, (cs.foldl setCurrentContent st).generated_lessons
      = st.generated_lessons := by
  induction cs with
  | nil => intro st; rfl
  | cons c cs ih => intro st; rw [List.foldl_cons, ih]; rfl

theorem Lesson.copy_eq (l : Lesson) : Lesson.copy l = l := by
  cases l; rfl

/-- C3: `parse_generated_questions` in Multiple Choice mode, on a block with
question text "Capital of UK?" and options `a) Paris`, `b) *London`,
`c) Rome`, returns exactly one question with options
`["Paris", "London", "Rome"]` and correct answer `"London"` (markers and the
asterisk annotation stripped). -/
theorem C3_mc_parse_example :
    parse_generated_questions "Capital of UK?\na) Paris\nb) *London\nc) Rome".data
      "Multiple Choice".data
    = [{ question := "Capital of UK?".data,
         options := ["Paris".data, "London".data, "Rome".data],
         correct_answer := "London".data, type := QType.multiple_choice }] := by
  decide

/-- C6: `parse_lesson_sections` on `"Overview:\nfoo\nLesson Procedure:\nbar"`
returns the ordered mapping `{"Overview:": "foo", "Lesson Procedure:": "bar"}`
with the two entries in order of appearance. -/
theorem C6_section_parse_example :
    parse_lesson_sections (some "Overview:\nfoo\nLesson Procedure:\nbar".data)
    = [("Overview:".data, "foo".data), ("Lesson Procedure:".data, "bar".data)] := by
  decide

/-- C7: both parsers are total Lean functions (they are plain `def`s, so they
never raise for any input); on entirely empty input
`parse_generated_questions` returns the empty list for every question type,
and `parse_lesson_sections` returns the empty mapping on absent (`none`) or
empty input. -/
theorem C7_parsers_total_empty :
    (∀ question_type : List Char, parse_generated_questions [] question_type = []) ∧
    parse_lesson_sections none = [] ∧
    parse_lesson_sections (some []) = [] := by
  refine ⟨fun question_type => ?_, rfl, rfl⟩
  unfold parse_generated_questions
  split
  · rfl
  · split
    · rfl
    · split
      · rfl
      · rfl

/-- C8: committing a lesson appends a value-copy to the history, so any
subsequent sequence of in-place content mutations of `current_lesson`
(section edits or section regenerations) leaves the committed history entry
equal to the lesson's fields at commit time. -/
theorem C8_copy_on_commit (s : LessonSession) (l : Lesson) (cs : List (List Char)) :
    (cs.foldl setCurrentContent (commitLesson s l)).generated_lessons
      = s.generated_lessons ++ [l] := by
  rw [foldl_setCurrentContent_history]
  show s.generated_lessons ++ [Lesson.copy l] = s.generated_lessons ++ [l]
  rw [Lesson.copy_eq]

theorem quizInv_init : QuizInv initQuizState := by
  refine ⟨le_refl 0, ?_, ?_, rfl⟩ <;> simp [initQuizState]

theorem quizStep_inv {s : QuizState} (h : QuizInv s) (op : QuizOp) :
    QuizInv (quizStep s op) := by
  obtain ⟨h0, hsc, hsub, htot⟩ := h
  cases op with
  | load qs =>
    refine ⟨le_refl 0, ?_, ?_, rfl⟩ <;> simp [quizStep]
  | clear =>
    refine ⟨le_refl 0, ?_, ?_, rfl⟩ <;> simp [quizStep]
  | submitAnswer i ua =>
    show QuizInv (quizStep s (QuizOp.submitAnswer i ua))
    simp only [quizStep]
    cases hq : s.generated_questions[i]? with
    | none => exact ⟨h0, hsc, hsub, htot⟩
    | some q =>
      have hi : i < s.generated_questions.length :=
        (List.getElem?_eq_some_iff.mp hq).1
      have hins : insert i s.answered_questions ⊆
          Finset.range s.generated_questions.length := by
        rw [Finset.insert_subset_iff]
        exact ⟨Finset.mem_range.mpr hi, hsub⟩
      have hcard : (s.answered_questions.card : ℤ) ≤
          ((insert i s.answered_questions).card : ℤ) := by
        exact_mod_cast Finset.card_le_card (Finset.subset_insert i s.answered_questions)
      have hcard2 : i ∉ s.answered_questions →
          ((insert i s.answered_questions).card : ℤ)
            = (s.answered_questions.card : ℤ) + 1 := by
        intro hmem
        exact_mod_cast Finset.card_insert_of_not_mem hmem
      dsimp only
      cases htq : q.type with
      | multiple_choice =>
        refine ⟨?_, ?_, hins, htot⟩ <;> dsimp only <;>
          split_ifs with h1 h2 <;>
          first
            | omega
            | (have hc2 := hcard2 h2; omega)
      | true_false =>
        refine ⟨?_, ?_, hins, htot⟩ <;> dsimp only <;>
          split_ifs with h1 h2 <;>
          first
            | omega
            | (have hc2 := hcard2 h2; omega)
      | short_answer =>
        exact ⟨h0, hsc.trans hcard, hins, htot⟩
      | open_ended =>
        exact ⟨h0, hsc.trans hcard, hins, htot⟩
  | regenerate i q =>
    show QuizInv (quizStep s (QuizOp.regenerate i q))
    simp only [quizStep]
    split
    · rename_i hi
      split
      · rename_i hmem
        have hmem' : i ∈ s.answered_questions := hmem
        have hpos : 1 ≤ s.answered_questions.card :=
          Finset.card_pos.mpr ⟨i, hmem'⟩
        have hcarde : (s.answered_questions.erase i).card
            = s.answered_questions.card - 1 :=
          Finset.card_erase_of_mem hmem'
        refine ⟨le_max_left 0 _, ?_, ?_, ?_⟩
        · simp only
          rw [hcarde]
          have : ((s.answered_questions.card - 1 : ℕ) : ℤ)
              = (s.answered_questions.card : ℤ) - 1 := by
            push_cast [hpos]
            omega
          rw [this]
          omega
        · simp only
          intro j hj
          have hj' : j ∈ s.answered_questions := Finset.mem_of_mem_erase hj
          have := hsub hj'
          simpa [List.length_set] using this
        · simpa [List.length_set] using htot
      · refine ⟨h0, hsc, ?_, ?_⟩
        · intro j hj
          have := hsub hj
          simpa [List.length_set] using this
        · simpa [List.length_set] using htot
    · exact ⟨h0, hsc, hsub, htot⟩

theorem foldl_quizInv (ops : List QuizOp) :
    ∀ s : QuizState, QuizInv s → QuizInv (ops.foldl quizStep s) := by
  induction ops with
  | nil => intro s h; exact h
  | cons op ops ih =>
    intro s h
    rw [List.foldl_cons]
    exact ih _ (quizStep_inv h op)

/-- C1: after any sequence of quiz interactions (load, submit, regenerate,
clear) starting from the initial session state,
`current_score ≤ |answered_questions| ≤ total_questions`; in particular the
score never exceeds the number of questions. -/
theorem C1_score_invariant (ops : List QuizOp) :
    (runQuiz ops).current_score ≤ ((runQuiz ops).answered_questions.card : ℤ) ∧
    (runQuiz ops).answered_questions.card ≤ (runQuiz ops).total_questions ∧
    (runQuiz ops).current_score ≤ ((runQuiz ops).total_questions : ℤ) := by
  obtain ⟨h0, hsc, hsub, htot⟩ := foldl_quizInv ops initQuizState quizInv_init
  have hrq : runQuiz ops = ops.foldl quizStep initQuizState := rfl
  have hcard : (runQuiz ops).answered_questions.card ≤ (runQuiz ops).total_questions := by
    rw [hrq, htot]
    have := Finset.card_le_card hsub
    rw [Finset.card_range] at this
    exact this
  refine ⟨by rw [hrq]; exact hsc, hcard, ?_⟩
  calc (runQuiz ops).current_score
      ≤ ((runQuiz ops).answered_questions.card : ℤ) := by rw [hrq]; exact hsc
    _ ≤ ((runQuiz ops).total_questions : ℤ) := by exact_mod_cast hcard

/-- C2 counterexample: the regenerate handler decrements the score whenever
the regenerated index is in `answered_questions`, regardless of whether that
question had been counted correct.  Here question 0 is submitted with the
wrong answer ("B"; the score stays 0), question 1 with the right answer
(score becomes 1); regenerating question 0 — which was never counted
correct — still drops the score from 1 to 0, so "decrements ... if and only
if question i had been counted correct" is false. -/
theorem C2_regenerate_counterexample :
    (runQuiz [QuizOp.load [mcQuestionA, mcQuestionB],
              QuizOp.submitAnswer 0 "B".data]).current_score = 0 ∧
    (runQuiz [QuizOp.load [mcQuestionA, mcQuestionB],
              QuizOp.submitAnswer 0 "B".data,
              QuizOp.submitAnswer 1 "A".data]).current_score = 1 ∧
    0 ∈ (runQuiz [QuizOp.load [mcQuestionA, mcQuestionB],
              QuizOp.submitAnswer 0 "B".data,
              QuizOp.submitAnswer 1 "A".data]).answered_questions ∧
    (runQuiz [QuizOp.load [mcQuestionA, mcQuestionB],
              QuizOp.submitAnswer 0 "B".data,
              QuizOp.submitAnswer 1 "A".data,
              QuizOp.regenerate 0 mcQuestionNew]).current_score = 0 := by
  decide

/-- C2 (amended): for every state and in-bounds index, regenerate replaces
`questions[i]`, removes `i` from `answered_questions`, and decrements the
score by 1 (never below 0) if and only if `i` was in `answered_questions`
(whether or not the recorded answer was correct); concretely, after
`load [q0, q1]`, `submitAnswer 0 correctValue`, `regenerate 0 newQ` the
index 0 is unanswered and the score is 0. -/
theorem C2_regenerate_amended (s : QuizState) (i : ℕ) (q : Question)
    (h : i < s.generated_questions.length) :
    ((quizStep s (QuizOp.regenerate i q)).generated_questions)[i]? = some q ∧
    i ∉ (quizStep s (QuizOp.regenerate i q)).answered_questions ∧
    (i ∈ s.answered_questions →
      (quizStep s (QuizOp.regenerate i q)).current_score = max 0 (s.current_score - 1) ∧
      (quizStep s (QuizOp.regenerate i q)).answered_questions
        = s.answered_questions.erase i) ∧
    (i ∉ s.answered_questions →
      (quizStep s (QuizOp.regenerate i q)).current_score = s.current_score ∧
      (quizStep s (QuizOp.regenerate i q)).answered_questions
        = s.answered_questions) ∧
    ((runQuiz [QuizOp.load [mcQuestionA, mcQuestionB], QuizOp.submitAnswer 0 "A".data,
               QuizOp.regenerate 0 mcQuestionNew]).current_score = 0 ∧
     0 ∉ (runQuiz [QuizOp.load [mcQuestionA, mcQuestionB], QuizOp.submitAnswer 0 "A".data,
               QuizOp.regenerate 0 mcQuestionNew]).answered_questions) := by
  have hset : (s.generated_questions.set i q)[i]? = some q :=
    List.getElem?_set_self h
  simp only [quizStep, if_pos h]
  by_cases hm : i ∈ s.answered_questions
  · rw [if_pos hm]
    exact ⟨hset, Finset.not_mem_erase i _, fun _ => ⟨rfl, rfl⟩,
      fun hn => absurd hm hn, by decide, by decide⟩
  · rw [if_neg hm]
    exact ⟨hset, hm, fun hmem => absurd hmem hm, fun _ => ⟨rfl, rfl⟩,
      by decide, by decide⟩

theorem C2_regenerate_amended_witness :
    0 < (⟨[mcQuestionA], 0, 1, ∅⟩ : QuizState).generated_questions.length ∧
    (((quizStep ⟨[mcQuestionA], 0, 1, ∅⟩
        (QuizOp.regenerate 0 mcQuestionNew)).generated_questions)[0]?
      = some mcQuestionNew ∧
     0 ∉ (quizStep ⟨[mcQuestionA], 0, 1, ∅⟩
        (QuizOp.regenerate 0 mcQuestionNew)).answered_questions ∧
     (0 ∈ (⟨[mcQuestionA], 0, 1, ∅⟩ : QuizState).answered_questions →
       (quizStep ⟨[mcQuestionA], 0, 1, ∅⟩
          (QuizOp.regenerate 0 mcQuestionNew)).current_score
         = max 0 ((⟨[mcQuestionA], 0, 1, ∅⟩ : QuizState).current_score - 1) ∧
       (quizStep ⟨[mcQuestionA], 0, 1, ∅⟩
          (QuizOp.regenerate 0 mcQuestionNew)).answered_questions
         = (⟨[mcQuestionA], 0, 1, ∅⟩ : QuizState).answered_questions.erase 0) ∧
     (0 ∉ (⟨[mcQuestionA], 0, 1, ∅⟩ : QuizState).answered_questions →
       (quizStep ⟨[mcQuestionA], 0, 1, ∅⟩
          (QuizOp.regenerate 0 mcQuestionNew)).current_score
         = (⟨[mcQuestionA], 0, 1, ∅⟩ : QuizState).current_score ∧
       (quizStep ⟨[mcQuestionA], 0, 1, ∅⟩
          (QuizOp.regenerate 0 mcQuestionNew)).answered_questions
         = (⟨[mcQuestionA], 0, 1, ∅⟩ : QuizState).answered_questions) ∧
     ((runQuiz [QuizOp.load [mcQuestionA, mcQuestionB], QuizOp.submitAnswer 0 "A".data,
                QuizOp.regenerate 0 mcQuestionNew]).current_score = 0 ∧
      0 ∉ (runQuiz [QuizOp.load [mcQuestionA, mcQuestionB], QuizOp.submitAnswer 0 "A".data,
                QuizOp.regenerate 0 mcQuestionNew]).answered_questions)) :=
  ⟨by decide, C2_regenerate_amended ⟨[mcQuestionA], 0, 1, ∅⟩ 0 mcQuestionNew (by decide)⟩

theorem tfScan_eq_getLast (lines : List (List Char)) :
    ∀ ca : Option (List Char),
      tfScan lines ca
        = match (lines.filter tfLineMatches).getLast? with
          | some l => some (tfValue l)
          | none => ca := by
  induction lines with
  | nil => intro ca; rfl
  | cons l rest ih =>
    intro ca
    by_cases hm : tfLineMatches l = true
    · simp only [tfScan]
      rw [if_pos hm, List.filter_cons_of_pos hm, ih (some (tfValue l))]
      cases hfr : rest.filter tfLineMatches with
      | nil => rfl
      | cons x xs =>
        rw [List.getLast?_cons_cons]
        cases hgl : (x :: xs).getLast? with
        | none => simp at hgl
        | some y => rfl
    · simp only [tfScan]
      rw [if_neg hm, List.filter_cons_of_neg hm]
      exact ih ca

/-- C5 counterexample: the True/False loop scans ALL lines of the block,
including the question line itself (`for line in lines:`, line 397), not just
the payload lines after it.  For a one-line block whose question line contains
"Answer:", the claim predicts no question (there are no payload lines), but
the code emits one. -/
theorem C5_tf_counterexample :
    parse_generated_questions "2+2=5? Answer: false".data "True/False".data
    = [{ question := "2+2=5? Answer: false".data,
         correct_answer := "False".data, type := QType.true_false }] := by
  decide

/-- C5 (amended): for every block (with non-empty stripped text and a
non-empty question line), the True/False branch scans ALL lines of the block —
the question line included — for one containing "Answer:" or "Correct:"
(label case-sensitive); if at least one such line exists, the block yields a
question whose correct answer is "True" when the LAST such line contains
"true" case-insensitively and "False" otherwise; if no such line exists the
block yields no question. -/
theorem C5_tf_amended (block : List Char)
    (hs : (pystrip block).isEmpty = false)
    (hq : (pystrip ((splitNl (pystrip block)).headD [])).isEmpty = false) :
    (((splitNl (pystrip block)).filter tfLineMatches) = [] →
      parseTFBlock block = none) ∧
    (∀ l, ((splitNl (pystrip block)).filter tfLineMatches).getLast? = some l →
      parseTFBlock block
        = some { question := pystrip ((splitNl (pystrip block)).headD []),
                 correct_answer := tfValue l, type := QType.true_false }) := by
  constructor
  · intro hnone
    unfold parseTFBlock
    rw [hs]
    simp only [Bool.false_eq_true, if_false]
    rw [tfScan_eq_getLast, hnone]
    rfl
  · intro l hlast
    unfold parseTFBlock
    rw [hs]
    simp only [Bool.false_eq_true, if_false]
    rw [tfScan_eq_getLast, hlast]
    simp only
    rw [hq]
    have hv : (tfValue l).isEmpty = false := by
      unfold tfValue
      split <;> decide
    rw [hv]
    rfl

theorem C5_tf_amended_witness :
    (pystrip "Sky?\nAnswer: True".data).isEmpty = false ∧
    (pystrip ((splitNl (pystrip "Sky?\nAnswer: True".data)).headD [])).isEmpty
      = false ∧
    ((((splitNl (pystrip "Sky?\nAnswer: True".data)).filter tfLineMatches) = [] →
       parseTFBlock "Sky?\nAnswer: True".data = none) ∧
     (∀ l, ((splitNl (pystrip "Sky?\nAnswer: True".data)).filter
              tfLineMatches).getLast? = some l →
       parseTFBlock "Sky?\nAnswer: True".data
         = some { question := pystrip ((splitNl
                    (pystrip "Sky?\nAnswer: True".data)).headD []),
                  correct_answer := tfValue l, type := QType.true_false })) :=
  ⟨by decide, by decide,
   C5_tf_amended "Sky?\nAnswer: True".data (by decide) (by decide)⟩

theorem mcScan_snd (lines : List (List Char)) :
    ∀ (opts : List (List Char)) (ca : Option (List Char)),
      (mcScan lines (opts, ca)).2
        = match (markedOptions lines).getLast? with
          | some o => some (cleanOption o)
          | none => ca := by
  induction lines with
  | nil => intro opts ca; rfl
  | cons line rest ih =>
    intro opts ca
    by_cases hol : isOptionLine (pystrip line) = true
    · by_cases hmk : isMarkedOption (pystrip ((pystrip line).drop 2)) = true
      · simp only [mcScan]
        rw [if_pos hol, if_pos hmk, ih]
        have hmark : markedOptions (line :: rest)
            = pystrip ((pystrip line).drop 2) :: markedOptions rest := by
          unfold markedOptions scannedOptions
          rw [List.filterMap_cons, if_pos hol]
          exact List.filter_cons_of_pos hmk
        rw [hmark]
        cases hfr : markedOptions rest with
        | nil => rfl
        | cons x xs =>
          rw [List.getLast?_cons_cons]
          cases hgl : (x :: xs).getLast? with
          | none => simp at hgl
          | some y => rfl
      · simp only [mcScan]
        rw [if_pos hol, if_neg hmk, ih]
        have hmark : markedOptions (line :: rest) = markedOptions rest := by
          unfold markedOptions scannedOptions
          rw [List.filterMap_cons, if_pos hol]
          exact List.filter_cons_of_neg hmk
        rw [hmark]
    · simp only [mcScan]
      rw [if_neg hol, ih]
      have hmark : markedOptions (line :: rest) = markedOptions rest := by
        unfold markedOptions scannedOptions
        rw [List.filterMap_cons, if_neg hol]
      rw [hmark]

theorem mcScan_fst (lines : List (List Char)) :
    ∀ (opts : List (List Char)) (ca : Option (List Char)),
      (mcScan lines (opts, ca)).1
        = opts ++ (scannedOptions lines).map cleanOption := by
  induction lines with
  | nil => intro opts ca; simp [mcScan, scannedOptions]
  | cons line rest ih =>
    intro opts ca
    by_cases hol : isOptionLine (pystrip line) = true
    · simp only [mcScan]
      rw [if_pos hol, ih]
      have hscn : scannedOptions (line :: rest)
          = pystrip ((pystrip line).drop 2) :: scannedOptions rest := by
        unfold scannedOptions
        rw [List.filterMap_cons, if_pos hol]
      rw [hscn]
      simp [List.append_assoc]
    · simp only [mcScan]
      rw [if_neg hol, ih]
      have hscn : scannedOptions (line :: rest) = scannedOptions rest := by
        unfold scannedOptions
        rw [List.filterMap_cons, if_neg hol]
      rw [hscn]

/-- C9: when several option lines of a Multiple Choice block carry a
correctness annotation, each later annotated option overwrites
`correct_answer`, so an emitted question's correct answer is the
annotation-stripped text of the LAST annotated option in scan order. -/
theorem C9_last_marked_wins (block : List Char) (o : List Char)
    (hlast : (markedOptions ((splitNl (pystrip block)).tail)).getLast? = some o)
    (q : Question) (hq : parseMCBlock block = some q) :
    q.correct_answer = cleanOption o := by
  unfold parseMCBlock at hq
  by_cases hstrip : (pystrip block).isEmpty = true
  · rw [if_pos hstrip] at hq
    exact absurd hq (by simp)
  · rw [if_neg hstrip] at hq
    dsimp only at hq
    rw [mcScan_snd, hlast] at hq
    simp only at hq
    by_cases hg : ((pystrip ((splitNl (pystrip block)).headD [])).isEmpty
        || (mcScan (splitNl (pystrip block)).tail ([], none)).1.isEmpty
        || (cleanOption o).isEmpty) = true
    · rw [if_pos hg] at hq
      exact absurd hq (by simp)
    · rw [if_neg hg] at hq
      have := Option.some.inj hq
      rw [← this]

theorem C9_last_marked_wins_witness :
    (markedOptions ((splitNl (pystrip "Q?\na) *X\nb) *Y".data)).tail)).getLast?
      = some "*Y".data ∧
    parseMCBlock "Q?\na) *X\nb) *Y".data = some c9Question ∧
    c9Question.correct_answer = cleanOption "*Y".data :=
  ⟨by decide, by decide,
   C9_last_marked_wins "Q?\na) *X\nb) *Y".data "*Y".data (by decide)
     c9Question (by decide)⟩

/-- C4: a Multiple Choice block whose question text is empty, or that has no
scanned option line, or none of whose options carries a correctness
annotation, contributes no question (and, the parser being a total function,
no error is raised). -/
theorem C4_mc_drop (block : List Char)
    (h : (pystrip ((splitNl (pystrip block)).headD [])).isEmpty = true ∨
         scannedOptions ((splitNl (pystrip block)).tail) = [] ∨
         markedOptions ((splitNl (pystrip block)).tail) = []) :
    parseMCBlock block = none ∧
    (∀ text, parse_generated_questions text "Multiple Choice".data
      = (splitQuestionBlocks text).filterMap parseMCBlock) := by
  refine ⟨?_, fun text => by unfold parse_generated_questions; rw [if_pos rfl]⟩
  unfold parseMCBlock
  by_cases hstrip : (pystrip block).isEmpty = true
  · rw [if_pos hstrip]
  · rw [if_neg hstrip]
    dsimp only
    rcases h with hq | hopt | hmk
    · cases hca : (mcScan (splitNl (pystrip block)).tail ([], none)).2 with
      | none => rfl
      | some ca =>
        dsimp only
        rw [hq]
        rfl
    · have h1 := mcScan_fst ((splitNl (pystrip block)).tail) [] none
      rw [hopt] at h1
      simp only [List.map_nil, List.append_nil] at h1
      cases hca : (mcScan (splitNl (pystrip block)).tail ([], none)).2 with
      | none => rfl
      | some ca =>
        dsimp only
        rw [h1]
        simp
    · have h2 := mcScan_snd ((splitNl (pystrip block)).tail) [] none
      rw [hmk] at h2
      simp only [List.getLast?_nil] at h2
      rw [h2]

theorem C4_mc_drop_witness :
    ((pystrip ((splitNl (pystrip "Q?\na) X\nb) Y".data)).headD [])).isEmpty = true ∨
     scannedOptions ((splitNl (pystrip "Q?\na) X\nb) Y".data)).tail) = [] ∨
     markedOptions ((splitNl (pystrip "Q?\na) X\nb) Y".data)).tail) = []) ∧
    (parseMCBlock "Q?\na) X\nb) Y".data = none ∧
     (∀ text, parse_generated_questions text "Multiple Choice".data
       = (splitQuestionBlocks text).filterMap parseMCBlock)) :=
  ⟨Or.inr (Or.inr (by decide)),
   C4_mc_drop "Q?\na) X\nb) Y".data (Or.inr (Or.inr (by decide)))⟩

theorem mem_keys_dictSet (m : List (List Char × List Char)) (k v a : List Char) :
    a ∈ (dictSet m k v).map Prod.fst ↔ a ∈ m.map Prod.fst ∨ a = k := by
  induction m with
  | nil => simp [dictSet]
  | cons p rest ih =>
    obtain ⟨k', v'⟩ := p
    by_cases hk : k' = k
    · subst hk
      simp only [dictSet]
      rw [if_pos trivial]
      simp only [List.map_cons, List.mem_cons]
      tauto
    · simp only [dictSet, if_neg hk, List.map_cons, List.mem_cons, ih]
      tauto

theorem dictSet_keys_nodup (m : List (List Char × List Char)) (k v : List Char)
    (h : (m.map Prod.fst).Nodup) : ((dictSet m k v).map Prod.fst).Nodup := by
  induction m with
  | nil => simp [dictSet]
  | cons p rest ih =>
    obtain ⟨k', v'⟩ := p
    simp only [List.map_cons, List.nodup_cons] at h
    obtain ⟨hk', hrest⟩ := h
    by_cases hk : k' = k
    · subst hk
      simp only [dictSet]
      rw [if_pos trivial]
      simp only [List.map_cons, List.nodup_cons]
      exact ⟨hk', hrest⟩
    · simp only [dictSet, if_neg hk, List.map_cons, List.nodup_cons]
      refine ⟨?_, ih hrest⟩
      rw [mem_keys_dictSet]
      rintro (hmem | rfl)
      · exact hk' hmem
      · exact hk rfl

theorem secLine_keys_nodup {st : SecState}
    (h : (st.sections.map Prod.fst).Nodup) (line : List Char) :
    ((secLine st line).sections.map Prod.fst).Nodup := by
  by_cases hh : isHeaderLine line = true
  · simp only [secLine, hh, if_true]
    by_cases ht : pyTruthyStr st.current_section = true
    · rw [if_pos ht]
      exact dictSet_keys_nodup _ _ _ h
    · rw [if_neg ht]
      exact h
  · simp only [secLine, hh, Bool.false_eq_true, if_false]
    by_cases hc : (pyTruthyStr st.current_section && !(pystrip line).isEmpty) = true
    · rw [if_pos hc]
      exact h
    · rw [if_neg hc]
      exact h

theorem foldl_secLine_keys_nodup (lines : List (List Char)) :
    ∀ st : SecState, (st.sections.map Prod.fst).Nodup →
      ((lines.foldl secLine st).sections.map Prod.fst).Nodup := by
  induction lines with
  | nil => intro st h; exact h
  | cons line rest ih =>
    intro st h
    rw [List.foldl_cons]
    exact ih _ (secLine_keys_nodup h line)

/-- C10 counterexample: when the same header line occurs twice and no content
follows the last occurrence, the end-of-input flush is skipped
(`if current_section and current_content:`), so the entry keeps the body
flushed at the last header occurrence — the content accumulated BEFORE it —
not the (empty) content accumulated after the last occurrence as the claim
states.  Here the claim predicts body `""`, but the result keeps `"foo"`. -/
theorem C10_counterexample :
    parse_lesson_sections (some "Overview:\nfoo\nOverview:".data)
    = [("Overview:".data, "foo".data)] := by decide

/-- C10 (amended): the returned mapping holds at most one entry per header
text (its keys are pairwise distinct, for every input); each occurrence of a
header overwrites that entry's body with the lines accumulated since the
previous header, without changing the entry's position (which is that of the
first occurrence), and the end-of-input flush happens only when the final
accumulator is non-empty — so the body comes from after the last occurrence
only when non-empty content follows it.  The two concrete runs exercise the
overwrite-at-first-position behavior. -/
theorem C10_duplicate_headers_amended :
    (∀ content, ((parse_lesson_sections content).map Prod.fst).Nodup) ∧
    parse_lesson_sections
        (some "Overview:\nfoo\nLesson Procedure:\nmid\nOverview:\nbar".data)
      = [("Overview:".data, "bar".data), ("Lesson Procedure:".data, "mid".data)] ∧
    parse_lesson_sections (some "Overview:\nfoo\nOverview:\nbar".data)
      = [("Overview:".data, "bar".data)] := by
  refine ⟨?_, by decide, by decide⟩
  intro content
  cases content with
  | none => simp [parse_lesson_sections]
  | some c =>
    simp only [parse_lesson_sections]
    by_cases hc : c.isEmpty = true
    · rw [if_pos hc]
      simp
    · rw [if_neg hc]
      have hfold := foldl_secLine_keys_nodup (splitNl c) ⟨[], none, []⟩ (by simp)
      by_cases hflush : (pyTruthyStr ((splitNl c).foldl secLine
            ⟨[], none, []⟩).current_section
          && !((splitNl c).foldl secLine ⟨[], none, []⟩).current_content.isEmpty)
          = true
      · rw [if_pos hflush]
        exact dictSet_keys_nodup _ _ _ hfold
      · rw [if_neg hflush]
        exact hfold
